import Mathlib

set_option maxRecDepth 8000

/-!
A shallow embedding of the WAM L0 machine of `src/l0/machine.rs`
(soverysour/scryer-prolog), together with theorems settling the spec
claims about it.

Modelling conventions: Rust `usize` is `Nat`; `Vec` indexing that would
panic (out of bounds) is modelled by an `Option` result, `none` standing
for the fatal error.  The two source-level loops (`Machine::deref` and
the `unify` worklist loop) are modelled with an explicit fuel argument;
`none` also covers fuel exhaustion, so a `some` result always corresponds
to an actual terminating run of the Rust loop.
-/

namespace L0

/-- Modelled from the spec: an `Atom` is an interned functor or constant
name.  The `Atom` type is declared in `src/l0/ast.rs`, which is not among
the sources; `machine.rs` only clones and compares atoms. -/
abbrev Atom := String

/-- Mirrors `enum HeapCell` of machine.rs:
`NamedStr(usize, Atom)`, `Ref(usize)`, `Str(usize)`. -/
inductive HeapCell where
  | NamedStr : Nat → Atom → HeapCell
  | Ref : Nat → HeapCell
  | Str : Nat → HeapCell
deriving DecidableEq

/-- Modelled from the spec: `Addr` (declared in `src/l0/ast.rs`, not among
the sources) addresses a cell either by heap position or by register
index, exactly as machine.rs destructures it
(`Addr::HeapCell(usize)` / `Addr::RegNum(usize)`). -/
inductive Addr where
  | HeapCell : Nat → Addr
  | RegNum : Nat → Addr
deriving DecidableEq

/-- Mirrors `enum MachineMode` of machine.rs. -/
inductive MachineMode where
  | Read
  | Write
deriving DecidableEq

/-- Modelled from the spec: the six L0 instruction kinds carried by a
compiled program (declared in `src/l0/ast.rs`, not among the sources),
with the payloads machine.rs destructures: an atom and an arity for the
structure instructions, and a register index. -/
inductive MachineInstruction where
  | GetStructure : Atom → Nat → Nat → MachineInstruction
  | PutStructure : Atom → Nat → Nat → MachineInstruction
  | SetVariable : Nat → MachineInstruction
  | SetValue : Nat → MachineInstruction
  | UnifyVariable : Nat → MachineInstruction
  | UnifyValue : Nat → MachineInstruction
deriving DecidableEq

/-- Modelled from the spec: a `Program` is the externally produced,
ordered sequence of instructions; machine.rs stores it opaquely in
`Machine.program` and never inspects it. -/
abbrev Program := List MachineInstruction

/-- Mirrors `struct Machine` of machine.rs, field for field. -/
structure Machine where
  h : Nat
  s : Nat
  fail : Bool
  heap : List HeapCell
  mode : MachineMode
  program : Option Program
  registers : List HeapCell
deriving DecidableEq

/-- Mirrors `Machine::new`: empty heap, 33 registers all `Ref(0)`,
mode `Write`, no program. -/
def Machine.new : Machine :=
  { h := 0
    s := 0
    fail := false
    heap := []
    mode := MachineMode.Write
    program := none
    registers := List.replicate 33 (HeapCell.Ref 0) }

/-- Mirrors `Machine::lookup`: the cell at a heap index or register
index; `none` models the Rust index-out-of-bounds panic. -/
def lookup (M : Machine) : Addr → Option HeapCell
  | Addr.HeapCell hc => M.heap.get? hc
  | Addr.RegNum reg => M.registers.get? reg

/-- Mirrors `Machine::deref` with explicit fuel for the `loop`.  A `Ref`
cell is followed only when the current address is a heap cell whose
stored target differs from its own position; in particular a register
address is returned unchanged whatever its cell holds, exactly as the
source's inner `if let Addr::HeapCell(av) = a` does. -/
def derefN (M : Machine) : Nat → Addr → Option Addr
  | 0, _ => none
  | fuel + 1, a =>
    match lookup M a with
    | some (HeapCell.Ref value) =>
      match a with
      | Addr.HeapCell av =>
        if value ≠ av then derefN M fuel (Addr.HeapCell value) else some a
      | Addr.RegNum _ => some a
    | some _ => some a
    | none => none

/-- Mirrors `Machine::bind`: overwrite the cell at `a` with `Ref(val)`;
`none` models the panic on an out-of-bounds index. -/
def bind (M : Machine) (a : Addr) (val : Nat) : Option Machine :=
  match a with
  | Addr.RegNum reg =>
    if reg < M.registers.length then
      some { M with registers := M.registers.set reg (HeapCell.Ref val) }
    else none
  | Addr.HeapCell hc =>
    if hc < M.heap.length then
      some { M with heap := M.heap.set hc (HeapCell.Ref val) }
    else none

/-- Mirrors the argument-pushing loop of `Machine::unify`:
`for i in 1 .. n { pdl.push(HeapCell(s1 + i)); pdl.push(HeapCell(s2 + i)) }`.
The worklist is a stack whose top is the list head, so the pair pushed
last ends up in front. -/
def pushArgs (s1 s2 n : Nat) (pdl : List Addr) : List Addr :=
  (List.range' 1 (n - 1)).foldl
    (fun acc i => Addr.HeapCell (s2 + i) :: Addr.HeapCell (s1 + i) :: acc) pdl

/-- Mirrors the `while` worklist loop of `Machine::unify`, with fuel for
the outer loop and `fD` fuel for each inner `deref`.  The head of the
list is the top of the Rust `pdl` stack; a one-element worklist models
the `unwrap` panic of the second `pop`. -/
def unifyLoop (fD : Nat) : Nat → Machine → List Addr → Option Machine
  | 0, _, _ => none
  | fuel + 1, M, pdl =>
    if pdl.isEmpty || M.fail then some M
    else
      match pdl with
      | [] => some M
      | [_] => none
      | x1 :: x2 :: rest =>
        match derefN M fD x1 with
        | none => none
        | some d1 =>
          match derefN M fD x2 with
          | none => none
          | some d2 =>
            if d1 = d2 then unifyLoop fD fuel M rest
            else
              match lookup M d1, lookup M d2 with
              | none, _ => none
              | _, none => none
              | some (HeapCell.Ref hc), some _ =>
                match bind M d2 hc with
                | none => none
                | some M2 => unifyLoop fD fuel M2 rest
              | some _, some (HeapCell.Ref hc) =>
                match bind M d1 hc with
                | none => none
                | some M2 => unifyLoop fD fuel M2 rest
              | some (HeapCell.Str s1), some (HeapCell.Str s2) =>
                match M.heap.get? s1, M.heap.get? s2 with
                | none, _ => none
                | _, none => none
                | some (HeapCell.NamedStr n1 f1), some (HeapCell.NamedStr n2 f2) =>
                  if n1 = n2 ∧ f1 = f2 then
                    unifyLoop fD fuel M (pushArgs s1 s2 n1 rest)
                  else unifyLoop fD fuel { M with fail := true } rest
                | some _, some _ => unifyLoop fD fuel { M with fail := true } rest
              | some _, some _ => unifyLoop fD fuel { M with fail := true } rest

/-- Mirrors `Machine::unify`: seed the worklist with `vec![a1, a2]`
(popped from the end, so `a2` is inspected first), clear `fail`, run the
worklist loop. -/
def unify (fD fL : Nat) (M : Machine) (a1 a2 : Addr) : Option Machine :=
  unifyLoop fD fL { M with fail := false } [a2, a1]

/-- Mirrors `Machine::execute`, one instruction at a time.  `fD` and `fL`
are the fuels handed to `deref` and to the `unify` worklist loop. -/
def execute (fD fL : Nat) (M : Machine) (instr : MachineInstruction) : Option Machine :=
  match instr with
  | MachineInstruction.GetStructure name arity reg =>
    match derefN M fD (Addr.RegNum reg) with
    | none => none
    | some addr =>
      match lookup M addr with
      | some (HeapCell.Str a) =>
        match M.heap.get? a with
        | some (HeapCell.NamedStr named_arity named_str) =>
          if arity = named_arity ∧ name = named_str then
            some { M with s := a + 1, mode := MachineMode.Read }
          else some { M with fail := true }
        | some _ => some M
        | none => none
      | some (HeapCell.Ref r) =>
        let M1 :=
          { M with heap := M.heap ++ [HeapCell.Str (M.h + 1), HeapCell.NamedStr arity name] }
        match bind M1 (Addr.RegNum r) M.h with
        | none => none
        | some M2 => some { M2 with h := M2.h + 2, mode := MachineMode.Write }
      | some _ => some { M with fail := true }
      | none => none
  | MachineInstruction.PutStructure name arity reg =>
    let heap2 := M.heap ++ [HeapCell.Str (M.h + 1), HeapCell.NamedStr arity name]
    match heap2.get? M.h with
    | some c =>
      if reg < M.registers.length then
        some { M with heap := heap2, registers := M.registers.set reg c, h := M.h + 2 }
      else none
    | none => none
  | MachineInstruction.SetVariable reg =>
    let heap2 := M.heap ++ [HeapCell.Ref M.h]
    match heap2.get? M.h with
    | some c =>
      if reg < M.registers.length then
        some { M with heap := heap2, registers := M.registers.set reg c, h := M.h + 1 }
      else none
    | none => none
  | MachineInstruction.SetValue reg =>
    match M.registers.get? reg with
    | some c => some { M with heap := M.heap ++ [c], h := M.h + 1 }
    | none => none
  | MachineInstruction.UnifyVariable reg =>
    match M.mode with
    | MachineMode.Read =>
      match M.heap.get? M.s with
      | some c =>
        if reg < M.registers.length then
          some { M with registers := M.registers.set reg c, s := M.s + 1 }
        else none
      | none => none
    | MachineMode.Write =>
      let heap2 := M.heap ++ [HeapCell.Ref M.h]
      match heap2.get? M.h with
      | some c =>
        if reg < M.registers.length then
          some { M with heap := heap2, registers := M.registers.set reg c,
                        h := M.h + 1, s := M.s + 1 }
        else none
      | none => none
  | MachineInstruction.UnifyValue reg =>
    match M.mode with
    | MachineMode.Read =>
      match unify fD fL M (Addr.RegNum reg) (Addr.HeapCell M.s) with
      | some M2 => some { M2 with s := M2.s + 1 }
      | none => none
    | MachineMode.Write =>
      match M.registers.get? reg with
      | some c => some { M with heap := M.heap ++ [c], h := M.h + 1, s := M.s + 1 }
      | none => none

/-- Mirrors `Machine::reset_heap`: take the attached program, rebuild the
construction-time state, reattach the program. -/
def reset_heap (M : Machine) : Machine :=
  { Machine.new with program := M.program }

/-- Recognises the `GetStructure` instruction kind. -/
def isGetStructureB : MachineInstruction → Bool
  | MachineInstruction.GetStructure _ _ _ => true
  | _ => false

/-- Recognises the `UnifyValue` instruction kind. -/
def isUnifyValueB : MachineInstruction → Bool
  | MachineInstruction.UnifyValue _ => true
  | _ => false

/-- The terminal condition the spec ascribes to `deref`: the cell at the
returned address is a non-reference cell, or a reference whose target is
its own position (the unbound sentinel; reference targets are heap
positions, so only a heap address can be such a sentinel). -/
def derefTerminalB (M : Machine) (a : Addr) : Bool :=
  match lookup M a, a with
  | some (HeapCell.Ref v), Addr.HeapCell av => v == av
  | some (HeapCell.Ref _), Addr.RegNum _ => false
  | some _, _ => true
  | none, _ => false

/-- Holds of a `deref` result that is a heap address satisfying the
spec's terminal condition. -/
def heapTerminalResultB (M : Machine) : Option Addr → Bool
  | some (Addr.HeapCell j) => derefTerminalB M (Addr.HeapCell j)
  | _ => false

/-- Fields `bind` leaves untouched, and preservation of both lengths. -/
lemma bind_facts {M : Machine} {a : Addr} {v : Nat} {M' : Machine}
    (hx : bind M a v = some M') :
    M'.h = M.h ∧ M'.s = M.s ∧ M'.fail = M.fail ∧ M'.mode = M.mode ∧
    M'.program = M.program ∧ M'.heap.length = M.heap.length ∧
    M'.registers.length = M.registers.length := by
  cases a with
  | RegNum reg =>
    simp only [bind] at hx
    split at hx
    · cases hx
      refine ⟨rfl, rfl, rfl, rfl, rfl, rfl, ?_⟩
      simp [List.length_set]
    · cases hx
  | HeapCell hc =>
    simp only [bind] at hx
    split at hx
    · cases hx
      refine ⟨rfl, rfl, rfl, rfl, rfl, ?_, rfl⟩
      simp [List.length_set]
    · cases hx

/-- Fields the `unify` worklist loop leaves untouched (everything except
`fail` and the cell contents), and preservation of both lengths. -/
lemma unifyLoop_facts (fD : Nat) :
    ∀ fuel M pdl M', unifyLoop fD fuel M pdl = some M' →
      M'.h = M.h ∧ M'.s = M.s ∧ M'.mode = M.mode ∧ M'.program = M.program ∧
      M'.heap.length = M.heap.length ∧ M'.registers.length = M.registers.length := by
  intro fuel
  induction fuel with
  | zero =>
    intro M pdl M' hx
    simp [unifyLoop] at hx
  | succ k ih =>
    intro M pdl M' hx
    simp only [unifyLoop] at hx
    split at hx
    · cases hx
      exact ⟨rfl, rfl, rfl, rfl, rfl, rfl⟩
    · split at hx
      · cases hx
        exact ⟨rfl, rfl, rfl, rfl, rfl, rfl⟩
      · cases hx
      · split at hx
        · cases hx
        · split at hx
          · cases hx
          · split at hx
            · exact ih _ _ _ hx
            · split at hx
              · cases hx
              · cases hx
              · rename_i hb
                split at hx
                · cases hx
                · rename_i M2 hb2
                  have h1 := bind_facts hb2
                  have h2 := ih _ _ _ hx
                  exact ⟨h2.1.trans h1.1, h2.2.1.trans h1.2.1,
                         h2.2.2.1.trans h1.2.2.2.1, h2.2.2.2.1.trans h1.2.2.2.2.1,
                         h2.2.2.2.2.1.trans h1.2.2.2.2.2.1,
                         h2.2.2.2.2.2.trans h1.2.2.2.2.2.2⟩
              · rename_i hb
                split at hx
                · cases hx
                · rename_i M2 hb2
                  have h1 := bind_facts hb2
                  have h2 := ih _ _ _ hx
                  exact ⟨h2.1.trans h1.1, h2.2.1.trans h1.2.1,
                         h2.2.2.1.trans h1.2.2.2.1, h2.2.2.2.1.trans h1.2.2.2.2.1,
                         h2.2.2.2.2.1.trans h1.2.2.2.2.2.1,
                         h2.2.2.2.2.2.trans h1.2.2.2.2.2.2⟩
              · split at hx
                · cases hx
                · cases hx
                · split at hx
                  · exact ih _ _ _ hx
                  · simpa using ih _ _ _ hx
                · simpa using ih _ _ _ hx
              · simpa using ih _ _ _ hx

/-- Fields `Machine::unify` leaves untouched, and preservation of both
lengths. -/
lemma unify_facts {fD fL : Nat} {M : Machine} {a1 a2 : Addr} {M' : Machine}
    (hx : unify fD fL M a1 a2 = some M') :
    M'.h = M.h ∧ M'.s = M.s ∧ M'.mode = M.mode ∧ M'.program = M.program ∧
    M'.heap.length = M.heap.length ∧ M'.registers.length = M.registers.length := by
  simpa using unifyLoop_facts fD fL { M with fail := false } [a2, a1] M' hx

/-- Per-instruction bookkeeping of `Machine::execute`: the heap-top
invariant is preserved, the heap never shrinks, only `GetStructure`
touches the mode, and `fail` is only touched by `GetStructure` and by a
`UnifyValue` executed in `Read` mode. -/
lemma execute_facts {fD fL : Nat} {M : Machine} {instr : MachineInstruction} {M' : Machine}
    (hx : execute fD fL M instr = some M') :
    (M.h = M.heap.length → M'.h = M'.heap.length) ∧
    M.heap.length ≤ M'.heap.length ∧
    (isGetStructureB instr = false → M'.mode = M.mode) ∧
    (isGetStructureB instr = false → isUnifyValueB instr = false → M'.fail = M.fail) ∧
    (∀ reg, instr = MachineInstruction.UnifyValue reg → M.mode = MachineMode.Write →
      M'.fail = M.fail) := by
  cases instr with
  | GetStructure name arity reg =>
    refine ⟨?_, ?_, ?_, ?_, ?_⟩
    case refine_3 => intro hq; simp [isGetStructureB] at hq
    case refine_4 => intro hq; simp [isGetStructureB] at hq
    case refine_5 => intro r hq; cases hq
    all_goals
      simp only [execute] at hx
      split at hx
      · cases hx
      · split at hx
        · split at hx
          · split at hx
            · cases hx; simp
            · cases hx; simp
          · cases hx; simp
          · cases hx
        · split at hx
          · cases hx
          · rename_i M2 hb2
            obtain ⟨e1, e2, e3, e4, e5, e6, e7⟩ := bind_facts hb2
            cases hx
            simp only [List.length_append] at e6
            first
            | (intro hh; simp [e1, e6, hh])
            | simp [e6]
        · cases hx; simp
        · cases hx
  | PutStructure name arity reg =>
    simp only [execute] at hx
    split at hx
    · split at hx
      · cases hx
        refine ⟨?_, ?_, fun _ => rfl, fun _ _ => rfl, fun r hq => by cases hq⟩ <;>
          simp [List.length_append, List.length_set]
      · cases hx
    · cases hx
  | SetVariable reg =>
    simp only [execute] at hx
    split at hx
    · split at hx
      · cases hx
        refine ⟨?_, ?_, fun _ => rfl, fun _ _ => rfl, fun r hq => by cases hq⟩ <;>
          simp [List.length_append, List.length_set]
      · cases hx
    · cases hx
  | SetValue reg =>
    simp only [execute] at hx
    split at hx
    · cases hx
      refine ⟨?_, ?_, fun _ => rfl, fun _ _ => rfl, fun r hq => by cases hq⟩ <;>
        simp [List.length_append]
    · cases hx
  | UnifyVariable reg =>
    simp only [execute] at hx
    split at hx
    · split at hx
      · split at hx
        · cases hx
          refine ⟨?_, ?_, fun _ => rfl, fun _ _ => rfl, fun r hq => by cases hq⟩ <;>
            simp [List.length_set]
        · cases hx
      · cases hx
    · split at hx
      · split at hx
        · cases hx
          refine ⟨?_, ?_, fun _ => rfl, fun _ _ => rfl, fun r hq => by cases hq⟩ <;>
            simp [List.length_append, List.length_set]
        · cases hx
      · cases hx
  | UnifyValue reg =>
    simp only [execute] at hx
    split at hx
    · rename_i hmode
      split at hx
      · rename_i M2 hu
        obtain ⟨e1, e2, e3, e4, e5, e6⟩ := unify_facts hu
        cases hx
        refine ⟨?_, ?_, fun _ => e3, fun _ hq => by simp [isUnifyValueB] at hq,
                fun r _ hw => by rw [hmode] at hw; cases hw⟩
        · intro hh; simpa [e1, e5] using hh
        · simp [e5]
      · cases hx
    · split at hx
      · cases hx
        refine ⟨?_, ?_, fun _ => rfl, fun _ hq => by simp [isUnifyValueB] at hq,
                fun r _ _ => rfl⟩ <;>
          simp [List.length_append]
      · cases hx

/-- Heap holding the two ground terms `f(a)` and `f(b)`: the first
structure's header sits at index 1 with its single argument at index 2
(a pointer to the `a/0` header at 6), the second structure's header at
index 4 with its argument at index 5 (a pointer to the `b/0` header
at 7). -/
def C1m : Machine :=
  { h := 8, s := 0, fail := false
    heap := [HeapCell.Str 1, HeapCell.NamedStr 1 "f", HeapCell.Str 6,
             HeapCell.Str 4, HeapCell.NamedStr 1 "f", HeapCell.Str 7,
             HeapCell.NamedStr 0 "a", HeapCell.NamedStr 0 "b"]
    mode := MachineMode.Write, program := none
    registers := List.replicate 33 (HeapCell.Ref 0) }

/-- C1: the structure-match arm of `unify` loops `for i in 1 .. n1`, so
on two matching `f/1` headers it pushes zero argument pairs instead of
the one pair the claim requires.  Unifying `f(a)` with `f(b)` therefore
returns the machine unchanged with `fail = false`, although unifying the
argument cells themselves (heap 2 against heap 5) fails. -/
theorem unify_arity_loop_trace :
    unify 10 10 C1m (Addr.HeapCell 0) (Addr.HeapCell 3) = some C1m ∧
    unify 10 10 C1m (Addr.HeapCell 2) (Addr.HeapCell 5) = some { C1m with fail := true } := by
  constructor <;> decide

/-- Heap holding the structure `a/0` (pointer at 0, header at 1) and an
unbound variable at index 2. -/
def C2m : Machine :=
  { h := 3, s := 0, fail := false
    heap := [HeapCell.Str 1, HeapCell.NamedStr 0 "a", HeapCell.Ref 2]
    mode := MachineMode.Write, program := none
    registers := List.replicate 33 (HeapCell.Ref 0) }

/-- C2: unifying the unbound variable at heap 2 with the structure
pointer at heap 0 overwrites the structure-pointer cell (heap 0) with
`Ref 2` and leaves the variable cell untouched and unbound: the arm
`(_, &HeapCell::Ref(hc)) => self.bind(d1, hc)` binds the non-variable
side, the opposite of what the claim states. -/
theorem unify_bind_direction_trace :
    unify 10 10 C2m (Addr.HeapCell 2) (Addr.HeapCell 0) =
      some { C2m with heap := [HeapCell.Ref 2, HeapCell.NamedStr 0 "a", HeapCell.Ref 2] } := by
  decide

/-- Run of C3's failing input: `SetVariable(5)` on a fresh machine (so
register 5 holds `Ref 0` and heap 0 is the unbound variable), then
`GetStructure("f", 1, 5)`. -/
def C3run : Option Machine :=
  match execute 5 5 Machine.new (MachineInstruction.SetVariable 5) with
  | some M1 => execute 5 5 M1 (MachineInstruction.GetStructure "f" 1 5)
  | none => none

/-- C3: the `Ref` arm of `GetStructure` does append the two cells
`Str 2` and `NamedStr(1, "f")` and sets `mode = Write`, but it executes
`bind(Addr::RegNum(reg), h)` with `reg` the shadowed payload of the
`Ref` cell (here 0), so register 0 is overwritten with `Ref 1` while the
dereferenced address (register 5) and the unbound heap cell 0 keep their
old cells. -/
theorem getstructure_wrong_bind_trace :
    C3run.map (fun M => (M.heap, M.registers.get? 5, M.registers.get? 0, M.mode, M.h)) =
      some ([HeapCell.Ref 0, HeapCell.Str 2, HeapCell.NamedStr 1 "f"],
            some (HeapCell.Ref 0), some (HeapCell.Ref 1), MachineMode.Write, 3) := by
  decide

/-- Run of C5's scenario, first instruction: `PutStructure("f", 1, R)`
with `R = 1` on a fresh machine. -/
def C5run1 : Option Machine :=
  execute 5 5 Machine.new (MachineInstruction.PutStructure "f" 1 1)

/-- Run of C5's scenario, both instructions: `PutStructure("f", 1, R)`
then `SetVariable(R)`, the same register `R = 1`. -/
def C5run2 : Option Machine :=
  match C5run1 with
  | some M1 => execute 5 5 M1 (MachineInstruction.SetVariable 1)
  | none => none

/-- C5 counterexample: after the two instructions register `R = 1` holds
the fresh unbound-variable cell `Ref 2`, not the structure-pointer cell
`Str 1` the claim requires (the heap itself is as claimed). -/
theorem putstructure_setvariable_counterexample :
    C5run2.map (fun M => M.registers.get? 1) = some (some (HeapCell.Ref 2)) ∧
    HeapCell.Ref 2 ≠ HeapCell.Str 1 ∧
    C5run2.map Machine.heap =
      some [HeapCell.Str 1, HeapCell.NamedStr 1 "f", HeapCell.Ref 2] := by
  refine ⟨by decide, by decide, by decide⟩

/-- C5 as amended: the final heap is the claimed three-cell sequence;
register `R = 1` holds the structure-pointer cell only between the two
instructions, and ends holding the unbound-variable cell `Ref 2` that
`SetVariable(R)` copies into it. -/
theorem putstructure_setvariable_amended :
    C5run1.map (fun M => M.registers.get? 1) = some (some (HeapCell.Str 1)) ∧
    C5run2.map Machine.heap =
      some [HeapCell.Str 1, HeapCell.NamedStr 1 "f", HeapCell.Ref 2] ∧
    C5run2.map (fun M => M.registers.get? 1) = some (some (HeapCell.Ref 2)) := by
  refine ⟨by decide, by decide, by decide⟩

/-- Heap holding the structure `f(X)` (pointer at 0, header at 1) whose
single argument, heap cell 2, is the unbound variable `X` itself. -/
def C9m : Machine :=
  { h := 3, s := 0, fail := false
    heap := [HeapCell.Str 1, HeapCell.NamedStr 1 "f", HeapCell.Ref 2]
    mode := MachineMode.Write, program := none
    registers := List.replicate 33 (HeapCell.Ref 0) }

/-- C9: unifying the unbound variable `X` (heap 2) with `f(X)` (heap 0)
terminates and ends with `fail = false`, as the claim says, but because
of the inverted binding direction the variable is left unbound and the
structure-pointer cell is overwritten with `Ref 2`; no cyclic term is
built. -/
theorem unify_no_occurs_check_trace :
    unify 10 10 C9m (Addr.HeapCell 2) (Addr.HeapCell 0) =
      some { C9m with heap := [HeapCell.Ref 2, HeapCell.NamedStr 1 "f", HeapCell.Ref 2] } ∧
    (unify 10 10 C9m (Addr.HeapCell 2) (Addr.HeapCell 0)).map Machine.fail = some false := by
  refine ⟨by decide, by decide⟩

/-- C6: `reset_heap` rebuilds the construction-time state — empty heap,
33 registers all holding the initial `Ref(0)` variable cell, `Write`
mode, `fail` cleared, `h` and `s` zero — while keeping the attached
program. -/
theorem reset_heap_state (M : Machine) :
    (reset_heap M).heap = [] ∧ (reset_heap M).heap.length = 0 ∧
    (reset_heap M).registers = List.replicate 33 (HeapCell.Ref 0) ∧
    (reset_heap M).registers.length = 33 ∧
    (reset_heap M).mode = MachineMode.Write ∧
    (reset_heap M).fail = false ∧
    (reset_heap M).h = 0 ∧ (reset_heap M).s = 0 ∧
    (reset_heap M).program = M.program := by
  refine ⟨rfl, rfl, rfl, by simp [reset_heap, Machine.new], rfl, rfl, rfl, rfl, rfl⟩

/-- Machine whose register 3 holds `Ref 0`, a bound reference (heap 0
holds the non-self structure pointer `Str 1`), on a well-formed heap
with no reference chains at all. -/
def C4m : Machine :=
  { h := 2, s := 0, fail := false
    heap := [HeapCell.Str 1, HeapCell.NamedStr 0 "a"]
    mode := MachineMode.Write, program := none
    registers := List.replicate 33 (HeapCell.Ref 0) }

/-- C4 counterexample: `deref` applied to register 3, whose cell is the
bound reference `Ref 0`, returns the register address itself; the cell
there is a reference that is not an unbound sentinel, so the claimed
terminal condition fails, while following the reference (as the claim
demands) would have reached the terminal heap address 0. -/
theorem deref_register_counterexample :
    derefN C4m 10 (Addr.RegNum 3) = some (Addr.RegNum 3) ∧
    lookup C4m (Addr.RegNum 3) = some (HeapCell.Ref 0) ∧
    derefTerminalB C4m (Addr.RegNum 3) = false ∧
    derefTerminalB C4m (Addr.HeapCell 0) = true := by
  refine ⟨by decide, by decide, by decide, by decide⟩

/-- C4 as amended: `deref` never follows a reference out of a register —
for an in-bounds register index it returns the register address
unchanged whatever the cell holds — and for a heap address on a
well-formed heap (reference targets in bounds, reference-following
acyclic as witnessed by a rank function) it returns a heap address whose
cell is a non-reference cell or the self-reference unbound sentinel. -/
theorem deref_terminal :
    (∀ M r fuel, r < M.registers.length →
      derefN M (fuel + 1) (Addr.RegNum r) = some (Addr.RegNum r)) ∧
    (∀ (M : Machine) (rank : Nat → Nat),
      (∀ i v, M.heap.get? i = some (HeapCell.Ref v) → v ≠ i →
        v < M.heap.length ∧ rank v < rank i) →
      ∀ fuel i, i < M.heap.length → rank i < fuel →
        heapTerminalResultB M (derefN M fuel (Addr.HeapCell i)) = true) := by
  constructor
  · intro M r fuel hr
    simp only [derefN, lookup]
    cases hq : M.registers.get? r with
    | none =>
      exfalso
      have := List.get?_eq_none.mp hq
      omega
    | some c => cases c <;> simp
  · intro M rank hwf fuel
    induction fuel with
    | zero => intro i hi hr; omega
    | succ k ih =>
      intro i hi hr
      rw [show derefN M (k + 1) (Addr.HeapCell i) =
            (match lookup M (Addr.HeapCell i) with
             | some (HeapCell.Ref value) =>
               if value ≠ i then derefN M k (Addr.HeapCell value)
               else some (Addr.HeapCell i)
             | some _ => some (Addr.HeapCell i)
             | none => none) from rfl]
      cases hq : lookup M (Addr.HeapCell i) with
      | none =>
        exfalso
        have := List.get?_eq_none.mp hq
        omega
      | some c =>
        cases c with
        | Ref v =>
          by_cases hvi : v = i
          · subst hvi
            simp [heapTerminalResultB, derefTerminalB, hq]
          · obtain ⟨hvlen, hvrank⟩ := hwf i v hq hvi
            show heapTerminalResultB M
              (if v ≠ i then derefN M k (Addr.HeapCell v)
               else some (Addr.HeapCell i)) = true
            rw [if_pos hvi]
            exact ih v hvlen (by omega)
        | NamedStr n f => simp [heapTerminalResultB, derefTerminalB, hq]
        | Str t => simp [heapTerminalResultB, derefTerminalB, hq]

/-- Machine whose heap is the two-cell reference chain
`[Ref 1, Ref 1]`: cell 0 is bound to cell 1, which is unbound. -/
def C4w : Machine :=
  { h := 2, s := 0, fail := false
    heap := [HeapCell.Ref 1, HeapCell.Ref 1]
    mode := MachineMode.Write, program := none
    registers := List.replicate 33 (HeapCell.Ref 0) }

/-- Witness for `deref_terminal` at concrete inputs: register 0 of a
fresh machine, and heap address 0 of the chain machine with the rank
function `fun i => 1 - i`. -/
theorem deref_terminal_witness :
    (0 < Machine.new.registers.length ∧
      derefN Machine.new 1 (Addr.RegNum 0) = some (Addr.RegNum 0)) ∧
    heapTerminalResultB C4w (derefN C4w 5 (Addr.HeapCell 0)) = true := by
  refine ⟨⟨by decide, deref_terminal.1 Machine.new 0 0 (by decide)⟩, ?_⟩
  refine deref_terminal.2 C4w (fun i => 1 - i) ?_ 5 0 (by decide) (by decide)
  intro i v hv hne
  match i with
  | 0 =>
    simp [C4w] at hv
    subst hv
    exact ⟨by decide, by decide⟩
  | 1 =>
    simp [C4w] at hv
    subst hv
    exact absurd rfl hne
  | n + 2 =>
    simp [C4w, List.get?] at hv

/-- C7: `heap_top = heap length` holds in a fresh machine and is
preserved by `bind`, by `unify`, and by every instruction; moreover
`bind` and `unify` never change the heap length and no instruction
shrinks the heap. -/
theorem heap_top_invariant :
    Machine.new.h = Machine.new.heap.length ∧
    (∀ M a v M', bind M a v = some M' → M.h = M.heap.length →
      M'.h = M'.heap.length ∧ M'.heap.length = M.heap.length) ∧
    (∀ fD fL M a1 a2 M', unify fD fL M a1 a2 = some M' → M.h = M.heap.length →
      M'.h = M'.heap.length ∧ M'.heap.length = M.heap.length) ∧
    (∀ fD fL M instr M', execute fD fL M instr = some M' → M.h = M.heap.length →
      M'.h = M'.heap.length ∧ M.heap.length ≤ M'.heap.length) := by
  refine ⟨rfl, ?_, ?_, ?_⟩
  · intro M a v M' hx hinv
    obtain ⟨e1, e2, e3, e4, e5, e6, e7⟩ := bind_facts hx
    omega
  · intro fD fL M a1 a2 M' hx hinv
    obtain ⟨e1, e2, e3, e4, e5, e6⟩ := unify_facts hx
    omega
  · intro fD fL M instr M' hx hinv
    have hfacts := execute_facts hx
    exact ⟨hfacts.1 hinv, hfacts.2.1⟩

/-- Final state of `SetVariable(0)` executed on a fresh machine. -/
def C7wM : Machine :=
  { h := 1, s := 0, fail := false
    heap := [HeapCell.Ref 0]
    mode := MachineMode.Write, program := none
    registers := List.replicate 33 (HeapCell.Ref 0) }

/-- Witness for `heap_top_invariant` at a concrete execution:
`SetVariable(0)` on a fresh machine. -/
theorem heap_top_invariant_witness :
    execute 5 5 Machine.new (MachineInstruction.SetVariable 0) = some C7wM ∧
    (C7wM.h = C7wM.heap.length ∧ Machine.new.heap.length ≤ C7wM.heap.length) :=
  ⟨by decide,
   heap_top_invariant.2.2.2 5 5 Machine.new (MachineInstruction.SetVariable 0) C7wM
     (by decide) rfl⟩

/-- C8: no operation other than `GetStructure` changes the mode —
every non-`GetStructure` instruction, `bind` and `unify` preserve it —
and a `GetStructure` whose register dereferences to a structure with a
non-matching header only sets `fail`, leaving everything else (the mode
included) unchanged. -/
theorem mode_only_getstructure :
    (∀ fD fL M instr M', isGetStructureB instr = false →
      execute fD fL M instr = some M' → M'.mode = M.mode) ∧
    (∀ M a v M', bind M a v = some M' → M'.mode = M.mode) ∧
    (∀ fD fL M a1 a2 M', unify fD fL M a1 a2 = some M' → M'.mode = M.mode) ∧
    (∀ fD fL M name arity reg addr strloc n f,
      derefN M fD (Addr.RegNum reg) = some addr →
      lookup M addr = some (HeapCell.Str strloc) →
      M.heap.get? strloc = some (HeapCell.NamedStr n f) →
      ¬(arity = n ∧ name = f) →
      execute fD fL M (MachineInstruction.GetStructure name arity reg) =
        some { M with fail := true }) := by
  refine ⟨?_, ?_, ?_, ?_⟩
  · intro fD fL M instr M' hni hx
    exact (execute_facts hx).2.2.1 hni
  · intro M a v M' hx
    exact (bind_facts hx).2.2.2.1
  · intro fD fL M a1 a2 M' hx
    exact (unify_facts hx).2.2.1
  · intro fD fL M name arity reg addr strloc n f h1 h2 h3 h4
    simp only [execute, h1, h2, h3]
    rw [if_neg h4]

/-- Machine whose register 2 is bound to the `g/2` structure whose
header sits at heap 0, with two unbound arguments. -/
def C8m : Machine :=
  { h := 3, s := 0, fail := false
    heap := [HeapCell.NamedStr 2 "g", HeapCell.Ref 1, HeapCell.Ref 2]
    mode := MachineMode.Read, program := none
    registers := (List.replicate 33 (HeapCell.Ref 0)).set 2 (HeapCell.Str 0) }

/-- Witness for `mode_only_getstructure` at a concrete mismatch:
`GetStructure("f", 2, 2)` against a register bound to a `g/2`
structure sets `fail` and leaves the mode unchanged. -/
theorem mode_only_getstructure_witness :
    execute 5 5 C8m (MachineInstruction.GetStructure "f" 2 2) =
      some { C8m with fail := true } ∧
    ({ C8m with fail := true } : Machine).mode = C8m.mode :=
  ⟨mode_only_getstructure.2.2.2 5 5 C8m "f" 2 2 (Addr.RegNum 2) 0 2 "g"
     (by decide) (by decide) (by decide) (by decide),
   rfl⟩

/-- C10: `PutStructure`, `SetVariable`, `SetValue` and `UnifyVariable`
leave `fail` unchanged, as does `UnifyValue` in `Write` mode and `bind`;
and `unify` resets `fail` before doing anything, so its outcome is
independent of the incoming flag. -/
theorem fail_flag_discipline :
    (∀ fD fL M name arity reg M',
      execute fD fL M (MachineInstruction.PutStructure name arity reg) = some M' →
      M'.fail = M.fail) ∧
    (∀ fD fL M reg M',
      execute fD fL M (MachineInstruction.SetVariable reg) = some M' →
      M'.fail = M.fail) ∧
    (∀ fD fL M reg M',
      execute fD fL M (MachineInstruction.SetValue reg) = some M' →
      M'.fail = M.fail) ∧
    (∀ fD fL M reg M',
      execute fD fL M (MachineInstruction.UnifyVariable reg) = some M' →
      M'.fail = M.fail) ∧
    (∀ fD fL M reg M', M.mode = MachineMode.Write →
      execute fD fL M (MachineInstruction.UnifyValue reg) = some M' →
      M'.fail = M.fail) ∧
    (∀ M a v M', bind M a v = some M' → M'.fail = M.fail) ∧
    (∀ fD fL M b a1 a2, unify fD fL M a1 a2 = unify fD fL { M with fail := b } a1 a2) := by
  refine ⟨?_, ?_, ?_, ?_, ?_, ?_, ?_⟩
  · intro fD fL M name arity reg M' hx
    exact (execute_facts hx).2.2.2.1 rfl rfl
  · intro fD fL M reg M' hx
    exact (execute_facts hx).2.2.2.1 rfl rfl
  · intro fD fL M reg M' hx
    exact (execute_facts hx).2.2.2.1 rfl rfl
  · intro fD fL M reg M' hx
    exact (execute_facts hx).2.2.2.1 rfl rfl
  · intro fD fL M reg M' hw hx
    exact (execute_facts hx).2.2.2.2 reg rfl hw
  · intro M a v M' hx
    exact (bind_facts hx).2.2.1
  · intro fD fL M b a1 a2
    cases M
    rfl

/-- Final state of `SetValue(0)` executed on a fresh machine. -/
def C10wM : Machine :=
  { h := 1, s := 0, fail := false
    heap := [HeapCell.Ref 0]
    mode := MachineMode.Write, program := none
    registers := List.replicate 33 (HeapCell.Ref 0) }

/-- Witness for `fail_flag_discipline` at a concrete execution:
`SetValue(0)` on a fresh machine. -/
theorem fail_flag_discipline_witness :
    execute 5 5 Machine.new (MachineInstruction.SetValue 0) = some C10wM ∧
    C10wM.fail = Machine.new.fail :=
  ⟨by decide,
   fail_flag_discipline.2.2.1 5 5 Machine.new 0 C10wM (by decide)⟩

end L0
